import Mathlib

/-!
Verification of the medical-NER extraction-and-persistence pipeline
(`app.py`, `medical_App.py`, `database.py`).

The Python code is shallowly embedded: strings are manipulated as `List Char`
through structurally recursive translations of the Python string methods the
code uses, the MySQL store is a record of row lists with auto-increment
counters, and `store_to_mysql`'s transactional write is a small-step program
over a session that separates committed from pending (uncommitted) rows.
-/

namespace MedicalNER

/-! ## Python string primitives (ASCII fragment used by the repository) -/

/-- Whitespace stripped by Python `str.strip()` (space, tab, newline, carriage
return, vertical tab, form feed). -/
def pyIsSpace (c : Char) : Bool :=
  c = ' ' || c = '\t' || c = '\n' || c = '\r' || c.toNat = 11 || c.toNat = 12

/-- ASCII lowering, as Python `str.lower()` acts on the ASCII range. -/
def pyCharLower (c : Char) : Char :=
  if 'A' ≤ c && c ≤ 'Z' then Char.ofNat (c.toNat + 32) else c

/-- Python `s.lower()`. -/
def pyLower (s : String) : String :=
  String.mk (s.data.map pyCharLower)

/-- Python `s.strip()`: drop leading and trailing whitespace. -/
def pyStrip (l : List Char) : List Char :=
  ((l.dropWhile pyIsSpace).reverse.dropWhile pyIsSpace).reverse

/-- Python `s.split(sep)` for a one-character separator: always returns at
least one (possibly empty) segment. -/
def pySplit (sep : Char) : List Char → List (List Char)
  | [] => [[]]
  | c :: cs =>
    let r := pySplit sep cs
    if c = sep then [] :: r
    else
      match r with
      | [] => [[c]]
      | g :: gs => (c :: g) :: gs

/-- `needle` occurs at the very start of `hay`. -/
def headMatch : List Char → List Char → Bool
  | _, [] => true
  | [], _ :: _ => false
  | a :: as, b :: bs => a = b && headMatch as bs

/-- Python `needle in hay`: `needle` occurs contiguously somewhere in `hay`. -/
def strHasSub (hay needle : List Char) : Bool :=
  match hay with
  | [] => needle.isEmpty
  | _ :: t => headMatch hay needle || strHasSub t needle

/-- Python `str.isdigit()`, restricted to the decimal digits `'0'..'9'`
(the repository's inputs are ASCII; wider Unicode digit classes are outside
the model). -/
def pyIsdigit (s : String) : Bool :=
  !s.data.isEmpty && s.data.all Char.isDigit

/-- Decimal value of a digit string, as Python `int(s)` computes it on a
string of decimal digits. -/
def digitsToNat (l : List Char) : Nat :=
  l.foldl (fun n c => 10 * n + (c.toNat - '0'.toNat)) 0

/-- Python `int(s)` on an all-digit string. -/
def pyInt (s : String) : Nat :=
  digitsToNat s.data

/-- Python `re.search(r"\d+", line)`: the first maximal run of decimal
digits in the line, if any. -/
def firstDigitRun : List Char → Option (List Char)
  | [] => none
  | c :: cs =>
    if c.isDigit then some (c :: cs.takeWhile Char.isDigit)
    else firstDigitRun cs

/-! ## Field extractor (`extract_patient_details` in app.py / medical_App.py) -/

/-- The `{name, age, gender}` record returned by the field extractor. -/
structure Details where
  name : String
  age : String
  gender : String
deriving DecidableEq, Repr

/-- Python `line.split(":")[-1]`: the segment after the last colon (the whole
line when there is no colon). -/
def afterLastColon (line : List Char) : List Char :=
  (pySplit ':' line).getLastD []

/-- The body of the extractor's per-line loop: keyword tests in priority
order Name, Age, Gender; a matching line overwrites the field. -/
def lineStep (d : Details) (line : List Char) : Details :=
  if strHasSub line "Name".data then
    { d with name := String.mk (pyStrip (afterLastColon line)) }
  else if strHasSub line "Age".data then
    match firstDigitRun line with
    | some run => { d with age := String.mk run }
    | none => { d with age := String.mk ((pyStrip (afterLastColon line)).take 10) }
  else if strHasSub line "Gender".data then
    { d with gender := String.mk (pyStrip (afterLastColon line)) }
  else d

/-- `extract_patient_details(text)`: split on newlines and fold the per-line
loop over an all-empty initial record. -/
def extract_patient_details (text : String) : Details :=
  (pySplit '\n' text.data).foldl lineStep ⟨"", "", ""⟩

example : extract_patient_details "Name: Jane Doe\nAge: 45\nGender: F" =
    ⟨"Jane Doe", "45", "F"⟩ := by decide

example : extract_patient_details "Age: 34 years" = ⟨"", "34", ""⟩ := by decide

example : extract_patient_details "Age: unknown" = ⟨"", "unknown", ""⟩ := by decide

example : extract_patient_details "" = ⟨"", "", ""⟩ := by decide

example : extract_patient_details "Name John" = ⟨"Name John", "", ""⟩ := by decide

/-! ## Entity normalizer (`extract_ner_entities`)

A Python dict is modelled as an association list with the dict's insertion
order; the external model's records carry string keys and values of an
arbitrary type `α` (the pipeline's values — spans, scores, offsets — are
never inspected by the normalizer). -/

/-- Python `d.pop(k)` (no default): the value at the first occurrence of `k`
and the dict without that entry; `none` models the `KeyError` on a missing
key. -/
def dictPop (k : String) : List (String × α) → Option (α × List (String × α))
  | [] => none
  | (k', v) :: d =>
    if k' = k then some (v, d)
    else
      match dictPop k d with
      | none => none
      | some (v', d') => some (v', (k', v) :: d')

/-- Python `d[k] = v`: overwrite the first occurrence of `k` in place, or
append the new key at the end (dict insertion order). -/
def dictSet (k : String) (v : α) : List (String × α) → List (String × α)
  | [] => [(k, v)]
  | (k', v') :: d => if k' = k then (k, v) :: d else (k', v') :: dictSet k v d

/-- Python `d[k]` lookup: the value at the first occurrence of `k`. -/
def dictGet (k : String) : List (String × α) → Option α
  | [] => none
  | (k', v) :: d => if k' = k then some v else dictGet k d

/-- The per-record body of `extract_ner_entities`'s loop:
`entity['label'] = entity.pop('entity_group'); entity['text'] = entity.pop('word')`.
`none` models the `KeyError` when a field is missing. -/
def normalizeEntity (d : List (String × α)) : Option (List (String × α)) :=
  match dictPop "entity_group" d with
  | none => none
  | some (g, d1) =>
    let d2 := dictSet "label" g d1
    match dictPop "word" d2 with
    | none => none
    | some (w, d3) => some (dictSet "text" w d3)

/-- Option-valued map, preserving order and length on success. -/
def mapOpt (f : α → Option β) : List α → Option (List β)
  | [] => some []
  | a :: as =>
    match f a with
    | none => none
    | some b =>
      match mapOpt f as with
      | none => none
      | some bs => some (b :: bs)

/-- `extract_ner_entities` restricted to its normalization loop: every record
returned by the external model is renamed in place, none is dropped. -/
def extract_ner_entities (es : List (List (String × α))) :
    Option (List (List (String × α))) :=
  mapOpt normalizeEntity es

example : extract_ner_entities
    [[("entity_group", "Medication"), ("score", "0.99"), ("word", "ibuprofen"),
      ("start", "10"), ("end", "19")]] =
    some [[("score", "0.99"), ("start", "10"), ("end", "19"),
           ("label", "Medication"), ("text", "ibuprofen")]] := by decide

/-! ## Relational store (`database.py`)

The three tables of `create_tables` are row lists plus the next
`AUTO_INCREMENT` value of each table (MySQL starts at 1). -/

/-- A row of the `patients` table. -/
structure PatientRow where
  id : Nat
  name : String
  age : Option Nat
  gender : String
deriving DecidableEq, Repr

/-- A row of the `reports` table. -/
structure ReportRow where
  id : Nat
  patient_id : Nat
  filename : String
  processed : Bool
deriving DecidableEq, Repr

/-- A row of the `ner_results` table. -/
structure NerRow where
  id : Nat
  report_id : Nat
  text : String
  label : String
deriving DecidableEq, Repr

/-- The persisted database. -/
structure DB where
  patients : List PatientRow
  reports : List ReportRow
  ner_results : List NerRow
  nextPatientId : Nat
  nextReportId : Nat
  nextNerId : Nat
deriving DecidableEq, Repr

/-- A freshly created schema (`create_tables` on an empty database):
no rows, every `AUTO_INCREMENT` at 1. -/
def DB.empty : DB :=
  ⟨[], [], [], 1, 1, 1⟩

/-! ### `store_to_mysql`

The multi-row write runs inside one transaction (`mysql.connector`
connections do not autocommit; the single `conn.commit()` comes last), so
the write is a straight-line program of insert operations followed by a
commit, executed over a session that separates the committed database
(what readers see) from the pending transaction state.  The `patient_id`
and `report_id` registers model the Python locals holding
`cursor.lastrowid`.  The `create_tables()` call at the top of the function
is schema-only (the tables always exist in this model). -/

/-- The age coercion of `store_to_mysql`:
`age_int = int(patient['age']) if patient['age'].isdigit() else None`. -/
def age_int (age : String) : Option Nat :=
  if pyIsdigit age then some (pyInt age) else none

/-- The gender coercion of `store_to_mysql`: case-insensitive match against
male/m and female/f, defaulting to Unknown. -/
def gender_normalized (gender : String) : String :=
  if pyLower gender = "male" ∨ pyLower gender = "m" then "Male"
  else if pyLower gender = "female" ∨ pyLower gender = "f" then "Female"
  else "Unknown"

/-- The `{name, age, gender}` argument of `store_to_mysql` (all strings, as
produced by the field extractor). -/
structure PatientFields where
  name : String
  age : String
  gender : String
deriving DecidableEq, Repr

/-- One normalized entity as consumed by `store_to_mysql` (only the
`text` and `label` keys are read). -/
structure EntityIn where
  text : String
  label : String
deriving DecidableEq, Repr

/-- One step of the transactional write. -/
inductive StoreOp where
  | insPatient (name : String) (age : Option Nat) (gender : String)
  | insReport (filename : String)
  | insEntity (text label : String)
  | commit
deriving DecidableEq, Repr

/-- Transaction session: the committed database visible to readers, the
pending state of the open transaction, and the Python locals
`patient_id` / `report_id` captured from `cursor.lastrowid`. -/
structure Session where
  committed : DB
  pending : DB
  patientId : Nat
  reportId : Nat
deriving DecidableEq, Repr

/-- Execute one step: inserts touch only the pending state (and the
lastrowid registers); `commit` publishes the pending state. -/
def applyOp (s : Session) : StoreOp → Session
  | .insPatient n a g =>
    let pid := s.pending.nextPatientId
    { s with
      pending := { s.pending with
        patients := s.pending.patients ++ [⟨pid, n, a, g⟩],
        nextPatientId := pid + 1 },
      patientId := pid }
  | .insReport f =>
    let rid := s.pending.nextReportId
    { s with
      pending := { s.pending with
        reports := s.pending.reports ++ [⟨rid, s.patientId, f, true⟩],
        nextReportId := rid + 1 },
      reportId := rid }
  | .insEntity t l =>
    let nid := s.pending.nextNerId
    { s with
      pending := { s.pending with
        ner_results := s.pending.ner_results ++ [⟨nid, s.reportId, t, l⟩],
        nextNerId := nid + 1 } }
  | .commit => { s with committed := s.pending }

/-- Run a list of steps in order. -/
def runOps (s : Session) (ops : List StoreOp) : Session :=
  ops.foldl applyOp s

/-- The straight-line program executed by `store_to_mysql`: insert the
coerced patient, insert the report, insert one `ner_results` row per
entity, then commit. -/
def storeProgram (patient : PatientFields) (entities : List EntityIn)
    (filename : String) : List StoreOp :=
  .insPatient patient.name (age_int patient.age) (gender_normalized patient.gender) ::
    .insReport filename ::
      (entities.map fun e => .insEntity e.text e.label) ++ [.commit]

/-- `store_to_mysql(patient, entities, filename)` on a given committed
database: the committed database after the transaction, paired with the
Python return value — the function body has no `return` statement, so the
caller receives `None`, modelled as `none`. -/
def store_to_mysql (patient : PatientFields) (entities : List EntityIn)
    (filename : String) (db : DB) : DB × Option (Nat × Nat) :=
  ((runOps ⟨db, db, 0, 0⟩ (storeProgram patient entities filename)).committed, none)

/-- The `ner_results` rows inserted for an entity list, starting from a
given auto-increment value, all owned by report `rid`. -/
def entityRows (rid : Nat) (startId : Nat) : List EntityIn → List NerRow
  | [] => []
  | e :: es => ⟨startId, rid, e.text, e.label⟩ :: entityRows rid (startId + 1) es

example :
    store_to_mysql ⟨"Jane Doe", "45", "F"⟩ [⟨"ibuprofen", "Medication"⟩] "r1.pdf" DB.empty =
      (⟨[⟨1, "Jane Doe", some 45, "Female"⟩], [⟨1, 1, "r1.pdf", true⟩],
        [⟨1, 1, "ibuprofen", "Medication"⟩], 2, 2, 2⟩, none) := by decide

/-! ### `fetch_all_reports` -/

/-- One report in `fetch_all_reports`' output, with its `(text, label)`
entities. -/
structure ReportOut where
  report_id : Nat
  filename : String
  processed : Bool
  entities : List (String × String)
deriving DecidableEq, Repr

/-- One patient in `fetch_all_reports`' output. -/
structure PatientOut where
  id : Nat
  name : String
  age : Option Nat
  gender : String
  reports : List ReportOut
deriving DecidableEq, Repr

/-- Insert `a` into an already sorted list, keeping `key` order (stable). -/
def insertByKey (key : α → Nat) (a : α) : List α → List α
  | [] => [a]
  | b :: bs => if key a ≤ key b then a :: b :: bs else b :: insertByKey key a bs

/-- Sort by a numeric key (insertion sort), modelling SQL `ORDER BY`. -/
def sortByKey (key : α → Nat) (l : List α) : List α :=
  l.foldr (insertByKey key) []

/-- The subquery `SELECT text, label FROM ner_results WHERE report_id = %s`
(row order modelled as insertion order; the query has no ORDER BY). -/
def reportEntities (db : DB) (rid : Nat) : List (String × String) :=
  (db.ner_results.filter fun nr => nr.report_id = rid).map fun nr => (nr.text, nr.label)

/-- `patients[patient_id]['reports'].append(...)`: append the report to the
accumulated entry with the given id. -/
def appendReport (pid : Nat) (ro : ReportOut) : List PatientOut → List PatientOut
  | [] => []
  | q :: qs =>
    if q.id = pid then { q with reports := q.reports ++ [ro] } :: qs
    else q :: appendReport pid ro qs

/-- The body of `fetch_all_reports`' grouping loop over one joined row:
create the patient entry on first sight, then append the report when
`row['report_id']` is truthy (`NULL` and 0 are falsy). -/
def addRow (db : DB) (acc : List PatientOut) (row : PatientRow × Option ReportRow) :
    List PatientOut :=
  let acc' :=
    if acc.any fun q => q.id = row.1.id then acc
    else acc ++ [⟨row.1.id, row.1.name, row.1.age, row.1.gender, []⟩]
  match row.2 with
  | some r =>
    if r.id ≠ 0 then appendReport row.1.id ⟨r.id, r.filename, r.processed, reportEntities db r.id⟩ acc'
    else acc'
  | none => acc'

/-- The rows of
`SELECT ... FROM patients p LEFT JOIN reports r ON p.id = r.patient_id ORDER BY p.id, r.id`:
each patient paired with each of its reports, or with `NULL` when it has
none. -/
def fetchRows (db : DB) : List (PatientRow × Option ReportRow) :=
  (sortByKey PatientRow.id db.patients).flatMap fun p =>
    let rs := sortByKey ReportRow.id (db.reports.filter fun r => r.patient_id = p.id)
    if rs.isEmpty then [(p, none)] else rs.map fun r => (p, some r)

/-- `fetch_all_reports()`: the hierarchical read, grouped by patient. -/
def fetch_all_reports (db : DB) : List PatientOut :=
  (fetchRows db).foldl (addRow db) []

example :
    fetch_all_reports ⟨[⟨1, "Jane Doe", some 45, "Female"⟩], [⟨1, 1, "r1.pdf", true⟩],
        [⟨1, 1, "ibuprofen", "Medication"⟩], 2, 2, 2⟩ =
      [⟨1, "Jane Doe", some 45, "Female",
        [⟨1, "r1.pdf", true, [("ibuprofen", "Medication")]⟩]⟩] := by decide

example :
    fetch_all_reports ⟨[⟨1, "Solo", none, "Unknown"⟩], [], [], 2, 1, 1⟩ =
      [⟨1, "Solo", none, "Unknown", []⟩] := by decide

/-! ### `search_reports` -/

/-- The `%s` bound to `p.id = %s`: the query itself when it is all digits,
else the sentinel `-1` (which no auto-increment id equals). -/
def pyIdParam (q : String) : Int :=
  if pyIsdigit q then (pyInt q : Int) else -1

/-- SQL `LIKE '%q%'` modelled as substring containment (the repository
interpolates the raw query between two `%`; wildcard metacharacters inside
the query and collation case-folding are outside the model). -/
def likeContains (hay q : String) : Bool :=
  strHasSub hay.data q.data

/-- `patients p LEFT JOIN reports r ON p.id = r.patient_id` for one
patient: its reports, or a single `NULL` row when it has none. -/
def lj1 (db : DB) (p : PatientRow) : List (Option ReportRow) :=
  let rs := db.reports.filter fun r => r.patient_id = p.id
  if rs.isEmpty then [none] else rs.map some

/-- `... LEFT JOIN ner_results nr ON r.id = nr.report_id` for one joined
report (a `NULL` report joins nothing). -/
def lj2 (db : DB) : Option ReportRow → List (Option NerRow)
  | none => [none]
  | some r =>
    let ns := db.ner_results.filter fun nr => nr.report_id = r.id
    if ns.isEmpty then [none] else ns.map some

/-- The full `patients × reports × ner_results` left join of the search
query. -/
def searchJoin (db : DB) : List (PatientRow × Option ReportRow × Option NerRow) :=
  db.patients.flatMap fun p =>
    (lj1 db p).flatMap fun ro => (lj2 db ro).map fun no => (p, ro, no)

/-- The WHERE clause:
`p.name LIKE %q% OR p.id = %s OR nr.text LIKE %q% OR nr.label LIKE %q%`
(`NULL` comparisons are false). -/
def whereClause (q : String) (row : PatientRow × Option ReportRow × Option NerRow) :
    Bool :=
  likeContains row.1.name q || ((row.1.id : Int) == pyIdParam q) ||
    (match row.2.2 with
     | some nr => likeContains nr.text q || likeContains nr.label q
     | none => false)

/-- One row of `SELECT DISTINCT p.id, p.name, p.age, p.gender, r.filename`. -/
structure SearchRow where
  id : Nat
  name : String
  age : Option Nat
  gender : String
  filename : Option String
deriving DecidableEq, Repr

/-- The main search query: filter the join by the WHERE clause, project the
selected columns, and drop duplicate rows (SQL `DISTINCT`, modelled by
`List.dedup`; only membership matters to the callers). -/
def search_reports (q : String) (db : DB) : List SearchRow :=
  (((searchJoin db).filter (whereClause q)).map fun row =>
    ⟨row.1.id, row.1.name, row.1.age, row.1.gender, row.2.1.map ReportRow.filename⟩).dedup

/-- The per-result enrichment query: every `(text, label, filename)` of the
patient, across all its reports. -/
def patientEntities (db : DB) (pid : Nat) : List (String × String × String) :=
  db.ner_results.flatMap fun nr =>
    (db.reports.filter fun r => r.id = nr.report_id ∧ r.patient_id = pid).map fun r =>
      (nr.text, nr.label, r.filename)

/-- `search_reports(query)` including the `result['entities']` enrichment. -/
def search_reportsFull (q : String) (db : DB) :
    List (SearchRow × List (String × String × String)) :=
  (search_reports q db).map fun row => (row, patientEntities db row.id)

example :
    search_reports "Jane" ⟨[⟨1, "Jane Doe", some 45, "Female"⟩], [⟨1, 1, "r1.pdf", true⟩],
        [⟨1, 1, "ibuprofen", "Medication"⟩], 2, 2, 2⟩ =
      [⟨1, "Jane Doe", some 45, "Female", some "r1.pdf"⟩] := by decide

example :
    search_reports "zzz" ⟨[⟨1, "Jane Doe", some 45, "Female"⟩], [⟨1, 1, "r1.pdf", true⟩],
        [⟨1, 1, "ibuprofen", "Medication"⟩], 2, 2, 2⟩ = [] := by decide

example :
    search_reports "1" ⟨[⟨1, "Jane Doe", some 45, "Female"⟩], [⟨1, 1, "r1.pdf", true⟩],
        [⟨1, 1, "ibuprofen", "Medication"⟩], 2, 2, 2⟩ =
      [⟨1, "Jane Doe", some 45, "Female", some "r1.pdf"⟩] := by decide

/-! ## Store lemmas -/

theorem runOps_append (s : Session) (l₁ l₂ : List StoreOp) :
    runOps s (l₁ ++ l₂) = runOps (runOps s l₁) l₂ := by
  simp [runOps, List.foldl_append]

theorem applyOp_committed (s : Session) (op : StoreOp) (h : op ≠ StoreOp.commit) :
    (applyOp s op).committed = s.committed := by
  cases op <;> first | rfl | exact absurd rfl h

theorem runOps_committed_of_no_commit (ops : List StoreOp) (s : Session)
    (h : ∀ op ∈ ops, op ≠ StoreOp.commit) :
    (runOps s ops).committed = s.committed := by
  induction ops generalizing s with
  | nil => rfl
  | cons op rest ih =>
    have h1 : (runOps s (op :: rest)) = runOps (applyOp s op) rest := rfl
    rw [h1, ih _ (fun o ho => h o (List.mem_cons_of_mem _ ho)),
      applyOp_committed _ _ (h op (List.mem_cons_self _ _))]

theorem runOps_insEntities (es : List EntityIn) (s : Session) :
    runOps s (es.map fun e => StoreOp.insEntity e.text e.label) =
      { s with pending := { s.pending with
          ner_results := s.pending.ner_results ++ entityRows s.reportId s.pending.nextNerId es,
          nextNerId := s.pending.nextNerId + es.length } } := by
  induction es generalizing s with
  | nil =>
    obtain ⟨c, ⟨ps, rs, ns, np, nr, nn⟩, pid, rid⟩ := s
    simp [runOps, entityRows]
  | cons e rest ih =>
    have h1 : runOps s ((e :: rest).map fun e => StoreOp.insEntity e.text e.label) =
        runOps (applyOp s (StoreOp.insEntity e.text e.label))
          (rest.map fun e => StoreOp.insEntity e.text e.label) := rfl
    rw [h1, ih]
    obtain ⟨c, ⟨ps, rs, ns, np, nr, nn⟩, pid, rid⟩ := s
    simp [applyOp, entityRows]
    omega

/-- The database committed by one successful `store_to_mysql` call: the
patient row (with coerced age and gender), the report row owned by it, and
one entity row per entity, all with freshly assigned consecutive ids. -/
def storedDB (patient : PatientFields) (entities : List EntityIn)
    (filename : String) (db : DB) : DB where
  patients := db.patients ++
    [⟨db.nextPatientId, patient.name, age_int patient.age, gender_normalized patient.gender⟩]
  reports := db.reports ++ [⟨db.nextReportId, db.nextPatientId, filename, true⟩]
  ner_results := db.ner_results ++ entityRows db.nextReportId db.nextNerId entities
  nextPatientId := db.nextPatientId + 1
  nextReportId := db.nextReportId + 1
  nextNerId := db.nextNerId + entities.length

theorem store_to_mysql_run (p : PatientFields) (es : List EntityIn) (fn : String)
    (db : DB) : store_to_mysql p es fn db = (storedDB p es fn db, none) := by
  have hsplit : storeProgram p es fn =
      ([StoreOp.insPatient p.name (age_int p.age) (gender_normalized p.gender),
        StoreOp.insReport fn] ++ (es.map fun e => StoreOp.insEntity e.text e.label)) ++
        [StoreOp.commit] := by
    simp [storeProgram]
  unfold store_to_mysql
  rw [hsplit, runOps_append, runOps_append]
  have h2 : runOps (⟨db, db, 0, 0⟩ : Session)
      [StoreOp.insPatient p.name (age_int p.age) (gender_normalized p.gender),
       StoreOp.insReport fn] =
      applyOp (applyOp ⟨db, db, 0, 0⟩
        (StoreOp.insPatient p.name (age_int p.age) (gender_normalized p.gender)))
        (StoreOp.insReport fn) := rfl
  rw [h2, runOps_insEntities]
  obtain ⟨ps, rs, ns, np, nr, nn⟩ := db
  simp [applyOp, runOps, storedDB]

theorem storeProgram_take_no_commit (p : PatientFields) (es : List EntityIn)
    (fn : String) (k : Nat) (hk : k < (storeProgram p es fn).length) :
    ∀ op ∈ (storeProgram p es fn).take k, op ≠ StoreOp.commit := by
  intro op hop
  have hsplit : storeProgram p es fn =
      (StoreOp.insPatient p.name (age_int p.age) (gender_normalized p.gender) ::
        StoreOp.insReport fn :: (es.map fun e => StoreOp.insEntity e.text e.label)) ++
        [StoreOp.commit] := by
    simp [storeProgram]
  rw [hsplit] at hop hk
  simp [List.length_append] at hk
  rw [List.take_append_of_le_length (by simp; omega)] at hop
  have hmem := List.take_subset k _ hop
  simp at hmem
  rcases hmem with h | h | ⟨a, _, h⟩ <;> subst h <;> simp

/-! ## Field extractor lemmas

A line is *attributed* to a keyword when it reaches that keyword's branch of
the per-line loop: the tests run in priority order Name, Age, Gender, so a
line is attributed to at most one keyword. -/

/-- The line reaches the Name branch. -/
def attrName (l : List Char) : Bool :=
  strHasSub l "Name".data

/-- The line reaches the Age branch. -/
def attrAge (l : List Char) : Bool :=
  !strHasSub l "Name".data && strHasSub l "Age".data

/-- The line reaches the Gender branch. -/
def attrGender (l : List Char) : Bool :=
  !strHasSub l "Name".data && !strHasSub l "Age".data && strHasSub l "Gender".data

/-- The colon-split-and-trim value of a line. -/
def colonVal (l : List Char) : String :=
  String.mk (pyStrip (afterLastColon l))

/-- The value the Age branch stores for a line. -/
def ageVal (l : List Char) : String :=
  match firstDigitRun l with
  | some run => String.mk run
  | none => String.mk ((pyStrip (afterLastColon l)).take 10)

theorem lineStep_name_attr (d : Details) (l : List Char) (h : attrName l = true) :
    lineStep d l = { d with name := colonVal l } := by
  simp only [attrName] at h
  simp [lineStep, h, colonVal]

theorem lineStep_name_not (d : Details) (l : List Char) (h : attrName l = false) :
    (lineStep d l).name = d.name := by
  simp only [attrName] at h
  cases hA : strHasSub l "Age".data <;> cases hG : strHasSub l "Gender".data <;>
    cases hR : firstDigitRun l <;> simp [lineStep, h, hA, hG, hR]

theorem lineStep_age_attr (d : Details) (l : List Char) (h : attrAge l = true) :
    lineStep d l = { d with age := ageVal l } := by
  simp only [attrAge, Bool.and_eq_true, Bool.not_eq_true'] at h
  cases hR : firstDigitRun l <;> simp [lineStep, ageVal, h.1, h.2, hR]

theorem lineStep_age_not (d : Details) (l : List Char) (h : attrAge l = false) :
    (lineStep d l).age = d.age := by
  simp only [attrAge, Bool.and_eq_false_iff, Bool.not_eq_false'] at h
  cases hN : strHasSub l "Name".data <;> cases hA : strHasSub l "Age".data <;>
    cases hG : strHasSub l "Gender".data <;> cases hR : firstDigitRun l <;>
      simp_all [lineStep]

theorem lineStep_gender_attr (d : Details) (l : List Char) (h : attrGender l = true) :
    lineStep d l = { d with gender := colonVal l } := by
  simp only [attrGender, Bool.and_eq_true, Bool.not_eq_true'] at h
  simp [lineStep, h.1.1, h.1.2, h.2, colonVal]

theorem lineStep_gender_not (d : Details) (l : List Char) (h : attrGender l = false) :
    (lineStep d l).gender = d.gender := by
  simp only [attrGender, Bool.and_eq_false_iff, Bool.not_eq_false'] at h
  cases hN : strHasSub l "Name".data <;> cases hA : strHasSub l "Age".data <;>
    cases hG : strHasSub l "Gender".data <;> cases hR : firstDigitRun l <;>
      simp_all [lineStep]

theorem getLast?_cons_of_ne_nil (a : α) (l : List α) (h : l ≠ []) :
    (a :: l).getLast? = l.getLast? := by
  cases l with
  | nil => exact absurd rfl h
  | cons b t => exact List.getLast?_cons_cons

/-- Last-occurrence characterization of the per-line fold, generic in the
field: the final field value comes from the last line attributed to the
field's keyword, or stays at its initial value. -/
theorem foldl_field (attr : List Char → Bool) (val : List Char → String)
    (get : Details → String)
    (h1 : ∀ d l, attr l = true → get (lineStep d l) = val l)
    (h2 : ∀ d l, attr l = false → get (lineStep d l) = get d)
    (ls : List (List Char)) (d : Details) :
    get (ls.foldl lineStep d) =
      match (ls.filter attr).getLast? with
      | some l => val l
      | none => get d := by
  induction ls generalizing d with
  | nil => rfl
  | cons l ls ih =>
    have hstep : (l :: ls).foldl lineStep d = ls.foldl lineStep (lineStep d l) := rfl
    rw [hstep, ih]
    rcases hfl : (ls.filter attr).getLast? with _ | l'
    · have hnil : ls.filter attr = [] := by
        cases hc : ls.filter attr with
        | nil => rfl
        | cons x xs => rw [hc] at hfl; simp [List.getLast?] at hfl
      cases ha : attr l with
      | true => simp [List.filter_cons, ha, hnil, List.getLast?, h1 d l ha]
      | false => simp [List.filter_cons, ha, hnil, List.getLast?, h2 d l ha]
    · have hne : ls.filter attr ≠ [] := by
        intro hc
        rw [hc] at hfl
        exact Option.noConfusion hfl
      cases ha : attr l with
      | true => rw [List.filter_cons_of_pos (by simp [ha]), getLast?_cons_of_ne_nil _ _ hne, hfl]
      | false => rw [List.filter_cons_of_neg (by simp [ha]), hfl]

theorem takeWhile_append_of_all (p : α → Bool) (l₁ l₂ : List α)
    (h : ∀ a ∈ l₁, p a = true) :
    (l₁ ++ l₂).takeWhile p = l₁ ++ l₂.takeWhile p := by
  induction l₁ with
  | nil => rfl
  | cons a t ih =>
    simp only [List.cons_append, List.takeWhile_cons, h a (List.mem_cons_self _ _)]
    simp [ih fun b hb => h b (List.mem_cons_of_mem _ hb)]

theorem takeWhile_eq_nil_of_head (p : α → Bool) (l : List α)
    (h : ∀ a, l.head? = some a → p a = false) :
    l.takeWhile p = [] := by
  cases l with
  | nil => rfl
  | cons a t => simp [List.takeWhile_cons, h a rfl]

/-- `re.search(r"\d+", ...)` finds exactly the first maximal digit run:
on `pre ++ run ++ post` with no digit in `pre`, `run` a nonempty digit run,
and `post` not starting with a digit, the match is `run`. -/
theorem firstDigitRun_concat (pre run post : List Char)
    (hpre : ∀ c ∈ pre, c.isDigit = false) (hne : run ≠ [])
    (hrun : ∀ c ∈ run, c.isDigit = true)
    (hpost : ∀ c, post.head? = some c → c.isDigit = false) :
    firstDigitRun (pre ++ run ++ post) = some run := by
  induction pre with
  | nil =>
    cases run with
    | nil => exact absurd rfl hne
    | cons c cs =>
      simp only [List.nil_append, List.cons_append, firstDigitRun,
        hrun c (List.mem_cons_self _ _), if_true, List.append_eq]
      rw [takeWhile_append_of_all _ _ _ fun b hb => hrun b (List.mem_cons_of_mem _ hb),
        takeWhile_eq_nil_of_head _ _ hpost, List.append_nil]
  | cons a pre ih =>
    simp only [List.cons_append, firstDigitRun, hpre a (List.mem_cons_self _ _)]
    simp only [Bool.false_eq_true, if_false]
    exact ih fun b hb => hpre b (List.mem_cons_of_mem _ hb)

/-- A line with no digit has no digit-run match. -/
theorem firstDigitRun_eq_none (l : List Char) (h : ∀ c ∈ l, c.isDigit = false) :
    firstDigitRun l = none := by
  induction l with
  | nil => rfl
  | cons c cs ih =>
    simp only [firstDigitRun, h c (List.mem_cons_self _ _), Bool.false_eq_true, if_false]
    exact ih fun b hb => h b (List.mem_cons_of_mem _ hb)

/-! ## Claims about the field extractor -/

/-- C7: for every input text, the name field is determined by the last line
in document order attributed to the Name keyword, and the gender field by
the last line attributed to the Gender keyword (later matching lines
overwrite earlier ones); the value taken from that line is the trailing
segment after the last colon, trimmed of surrounding whitespace (empty
string when no line is attributed to the keyword). -/
theorem extract_last_occurrence (text : String) :
    ((extract_patient_details text).name =
      match ((pySplit '\n' text.data).filter attrName).getLast? with
      | some l => String.mk (pyStrip (afterLastColon l))
      | none => "")
    ∧ ((extract_patient_details text).gender =
      match ((pySplit '\n' text.data).filter attrGender).getLast? with
      | some l => String.mk (pyStrip (afterLastColon l))
      | none => "") := by
  constructor
  · rw [extract_patient_details,
      foldl_field attrName colonVal Details.name
        (fun d l h => by rw [lineStep_name_attr d l h])
        (fun d l h => lineStep_name_not d l h)]
    rcases ((pySplit '\n' text.data).filter attrName).getLast? with _ | l <;> rfl
  · rw [extract_patient_details,
      foldl_field attrGender colonVal Details.gender
        (fun d l h => by rw [lineStep_gender_attr d l h])
        (fun d l h => lineStep_gender_not d l h)]
    rcases ((pySplit '\n' text.data).filter attrGender).getLast? with _ | l <;> rfl

/-- C8: for every line attributed to the Age keyword, if the line contains a
run of decimal digits the age field becomes the first such run verbatim;
if the line contains no digit, the age field becomes the trailing segment
after the last colon, trimmed, truncated to at most 10 characters.
Concretely, "Age: 34 years" yields "34" and "Age: unknown" yields
"unknown". -/
theorem extract_age_rule :
    (∀ (d : Details) (pre run post : List Char),
      attrAge (pre ++ run ++ post) = true →
      (∀ c ∈ pre, c.isDigit = false) → run ≠ [] → (∀ c ∈ run, c.isDigit = true) →
      (∀ c, post.head? = some c → c.isDigit = false) →
      (lineStep d (pre ++ run ++ post)).age = String.mk run)
    ∧ (∀ (d : Details) (l : List Char),
      attrAge l = true → (∀ c ∈ l, c.isDigit = false) →
      (lineStep d l).age = String.mk ((pyStrip (afterLastColon l)).take 10))
    ∧ (extract_patient_details "Age: 34 years").age = "34"
    ∧ (extract_patient_details "Age: unknown").age = "unknown" := by
  refine ⟨?_, ?_, by decide, by decide⟩
  · intro d pre run post hattr hpre hne hrun hpost
    rw [lineStep_age_attr d _ hattr, ageVal,
      firstDigitRun_concat pre run post hpre hne hrun hpost]
  · intro d l hattr hnd
    rw [lineStep_age_attr d l hattr, ageVal, firstDigitRun_eq_none l hnd]

/-- C8 witness: the digit-run rule applied to the concrete line
"Age: 34 years" (split as "Age: " ++ "34" ++ " years"). -/
theorem extract_age_rule_witness :
    attrAge ("Age: ".data ++ "34".data ++ " years".data) = true ∧
    (lineStep ⟨"", "", ""⟩ ("Age: ".data ++ "34".data ++ " years".data)).age = "34" := by
  refine ⟨by decide, ?_⟩
  exact extract_age_rule.1 ⟨"", "", ""⟩ "Age: ".data "34".data " years".data
    (by decide) (by decide) (by decide) (by decide) (by decide)

/-- C9 counterexample: the line "Name John" contains the Name keyword but no
colon — a malformed keyword line — yet the extractor stores the whole
trimmed line "Name John", not the empty string, in the name field. -/
theorem extract_malformed_counterexample :
    extract_patient_details "Name John" = ⟨"Name John", "", ""⟩ ∧
    strHasSub "Name John".data "Name".data = true ∧
    ¬ strHasSub "Name John".data ":".data = true ∧
    ("Name John" : String) ≠ "" := by decide

/-- C9 amended: `extract_patient_details` is total (it never raises and
always returns all three string fields — it is a Lean function into
`Details`); when a keyword occurs in no line of the text, the
corresponding field is the empty string.  (A keyword line without a colon
yields the whole trimmed line, not the empty string.) -/
theorem extract_totality (text : String) :
    ((∀ l ∈ pySplit '\n' text.data, strHasSub l "Name".data = false) →
      (extract_patient_details text).name = "")
    ∧ ((∀ l ∈ pySplit '\n' text.data, strHasSub l "Age".data = false) →
      (extract_patient_details text).age = "")
    ∧ ((∀ l ∈ pySplit '\n' text.data, strHasSub l "Gender".data = false) →
      (extract_patient_details text).gender = "") := by
  refine ⟨fun h => ?_, fun h => ?_, fun h => ?_⟩
  · rw [extract_patient_details,
      foldl_field attrName colonVal Details.name
        (fun d l hl => by rw [lineStep_name_attr d l hl])
        (fun d l hl => lineStep_name_not d l hl)]
    have : (pySplit '\n' text.data).filter attrName = [] :=
      List.filter_eq_nil_iff.mpr fun l hl => by simp [attrName, h l hl]
    rw [this]
    rfl
  · rw [extract_patient_details,
      foldl_field attrAge ageVal Details.age
        (fun d l hl => by rw [lineStep_age_attr d l hl])
        (fun d l hl => lineStep_age_not d l hl)]
    have : (pySplit '\n' text.data).filter attrAge = [] :=
      List.filter_eq_nil_iff.mpr fun l hl => by simp [attrAge, h l hl]
    rw [this]
    rfl
  · rw [extract_patient_details,
      foldl_field attrGender colonVal Details.gender
        (fun d l hl => by rw [lineStep_gender_attr d l hl])
        (fun d l hl => lineStep_gender_not d l hl)]
    have : (pySplit '\n' text.data).filter attrGender = [] :=
      List.filter_eq_nil_iff.mpr fun l hl => by simp [attrGender, h l hl]
    rw [this]
    rfl

/-- C9 witness: on the keyword-free text "hello world" every field is
empty. -/
theorem extract_totality_witness :
    (∀ l ∈ pySplit '\n' "hello world".data, strHasSub l "Name".data = false) ∧
    (extract_patient_details "hello world").name = "" ∧
    (extract_patient_details "hello world").age = "" ∧
    (extract_patient_details "hello world").gender = "" :=
  ⟨by decide, (extract_totality "hello world").1 (by decide),
    (extract_totality "hello world").2.1 (by decide),
    (extract_totality "hello world").2.2 (by decide)⟩

/-! ## Claims about the persistence layer -/

/-- C1: storing the patient `{name:"Jane Doe", age:"45", gender:"F"}` with
any two normalized entities and any filename into an empty store, then
fetching all patients, returns exactly one patient (name "Jane Doe", age
45, gender coerced to "Female") carrying exactly one report (the given
filename, processed = true) carrying exactly those two entities, in
identifier (= insertion) order. -/
theorem store_fetch_roundtrip (e1 e2 : EntityIn) (fn : String) :
    fetch_all_reports (store_to_mysql ⟨"Jane Doe", "45", "F"⟩ [e1, e2] fn DB.empty).1 =
      [⟨1, "Jane Doe", some 45, "Female",
        [⟨1, fn, true, [(e1.text, e1.label), (e2.text, e2.label)]⟩]⟩] := by
  obtain ⟨t1, l1⟩ := e1
  obtain ⟨t2, l2⟩ := e2
  rfl

/-- C2 counterexample: `store_to_mysql` has no `return` statement, so at the
concrete input below the caller receives `None` (modelled `none`), not the
pair of identifiers (1, 1) assigned to the newly inserted patient and
report rows. -/
theorem store_return_counterexample :
    (store_to_mysql ⟨"Jane Doe", "45", "F"⟩ [] "r1.pdf" DB.empty).2 = none ∧
    (store_to_mysql ⟨"Jane Doe", "45", "F"⟩ [] "r1.pdf" DB.empty).1.patients.map
      PatientRow.id = [1] ∧
    (store_to_mysql ⟨"Jane Doe", "45", "F"⟩ [] "r1.pdf" DB.empty).1.reports.map
      ReportRow.id = [1] ∧
    (none : Option (Nat × Nat)) ≠ some (1, 1) := by decide

/-- C2 amended: for every patient-fields record, entity sequence, filename
and database, the store operation assigns the next patient identifier to
the newly inserted patient row and the next report identifier to the newly
inserted report row (owned by that patient), but returns `None` to the
caller — the identifiers are computed in locals and never returned. -/
theorem store_assigns_ids_returns_none (p : PatientFields) (es : List EntityIn)
    (fn : String) (db : DB) :
    (store_to_mysql p es fn db).2 = none ∧
    (store_to_mysql p es fn db).1.patients = db.patients ++
      [⟨db.nextPatientId, p.name, age_int p.age, gender_normalized p.gender⟩] ∧
    (store_to_mysql p es fn db).1.reports = db.reports ++
      [⟨db.nextReportId, db.nextPatientId, fn, true⟩] := by
  rw [store_to_mysql_run]
  exact ⟨rfl, rfl, rfl⟩

/-- C3: atomicity of store.  The write is one transaction whose single
commit is its last step: aborting after any proper prefix of the program
(a failure at any step) leaves the committed database unchanged — no
partial patient/report/entity triple is ever visible to readers — while
the completed call commits exactly the one patient row, one report row and
one entity row per normalized entity. -/
theorem store_atomicity (p : PatientFields) (es : List EntityIn) (fn : String)
    (db : DB) :
    (∀ k < (storeProgram p es fn).length,
      (runOps ⟨db, db, 0, 0⟩ ((storeProgram p es fn).take k)).committed = db)
    ∧ (store_to_mysql p es fn db).1 = storedDB p es fn db := by
  constructor
  · intro k hk
    exact runOps_committed_of_no_commit _ _ (storeProgram_take_no_commit p es fn k hk)
  · rw [store_to_mysql_run]

/-- C3 witness: aborting the concrete one-entity store after its first two
steps leaves the empty database unchanged. -/
theorem store_atomicity_witness :
    2 < (storeProgram ⟨"Jane Doe", "45", "F"⟩ [⟨"ibuprofen", "Medication"⟩] "r1.pdf").length ∧
    (runOps ⟨DB.empty, DB.empty, 0, 0⟩
      ((storeProgram ⟨"Jane Doe", "45", "F"⟩ [⟨"ibuprofen", "Medication"⟩] "r1.pdf").take 2)).committed =
      DB.empty :=
  ⟨by decide,
    (store_atomicity ⟨"Jane Doe", "45", "F"⟩ [⟨"ibuprofen", "Medication"⟩] "r1.pdf"
      DB.empty).1 2 (by decide)⟩

/-- C4: age coercion in store.  For every age string: when the string is
nonempty and composed entirely of decimal digits, the inserted patient row
stores its decimal value; for every other string (including the empty
string) the row stores NULL (`none`).  The coercion is a total function —
it never raises. -/
theorem store_age_coercion (p : PatientFields) (es : List EntityIn) (fn : String)
    (db : DB) :
    (store_to_mysql p es fn db).1.patients = db.patients ++
      [⟨db.nextPatientId, p.name,
        if p.age.data ≠ [] ∧ p.age.data.all Char.isDigit then
          some (digitsToNat p.age.data) else none,
        gender_normalized p.gender⟩] := by
  rw [store_to_mysql_run]
  have hcond : age_int p.age =
      if p.age.data ≠ [] ∧ p.age.data.all Char.isDigit then
        some (digitsToNat p.age.data) else none := by
    rw [age_int, pyIsdigit, pyInt]
    rcases hd : p.age.data with _ | ⟨c, cs⟩
    · simp [hd]
    · by_cases hall : (c :: cs).all Char.isDigit = true <;> simp [hall]
  rw [storedDB, hcond]

/-- C10: for every patient-fields record, filename and database, calling
store with an empty entity sequence still inserts exactly one patient row
and exactly one report row (processed = true, owned by that patient) and
zero entity rows, and completes without error (the call is total). -/
theorem store_empty_entities (p : PatientFields) (fn : String) (db : DB) :
    (store_to_mysql p [] fn db).1.patients = db.patients ++
      [⟨db.nextPatientId, p.name, age_int p.age, gender_normalized p.gender⟩] ∧
    (store_to_mysql p [] fn db).1.reports = db.reports ++
      [⟨db.nextReportId, db.nextPatientId, fn, true⟩] ∧
    (store_to_mysql p [] fn db).1.ner_results = db.ner_results := by
  rw [store_to_mysql_run]
  exact ⟨rfl, rfl, by simp [storedDB, entityRows]⟩

/-! ## Dict lemmas and the normalizer claim -/

theorem dictGet_of_dictPop (k : String) (d d' : List (String × α)) (v : α)
    (h : dictPop k d = some (v, d')) : dictGet k d = some v := by
  induction d generalizing d' with
  | nil => exact Option.noConfusion h
  | cons kv t ih =>
    obtain ⟨k', v'⟩ := kv
    by_cases hk : k' = k
    · simp [dictPop, hk] at h
      simp [dictGet, hk, h.1]
    · simp only [dictPop, hk, if_neg] at h
      rcases hp : dictPop k t with _ | ⟨w, t'⟩
      · rw [hp] at h
        exact Option.noConfusion h
      · rw [hp] at h
        simp at h
        simp only [dictGet, hk, if_neg]
        exact ih t' (by rw [hp, h.1])

theorem dictPop_of_dictGet (k : String) (d : List (String × α)) (v : α)
    (h : dictGet k d = some v) : ∃ d', dictPop k d = some (v, d') := by
  induction d with
  | nil => exact Option.noConfusion h
  | cons kv t ih =>
    obtain ⟨k', v'⟩ := kv
    by_cases hk : k' = k
    · simp [dictGet, hk] at h
      exact ⟨t, by simp [dictPop, hk, h]⟩
    · simp only [dictGet, hk, if_neg] at h
      obtain ⟨t', ht⟩ := ih h
      exact ⟨(k', v') :: t', by simp [dictPop, hk, ht]⟩

theorem dictGet_dictPop_ne (k k₀ : String) (d d' : List (String × α)) (v : α)
    (hpop : dictPop k₀ d = some (v, d')) (hne : k ≠ k₀) :
    dictGet k d' = dictGet k d := by
  induction d generalizing d' with
  | nil => exact Option.noConfusion hpop
  | cons kv t ih =>
    obtain ⟨k', v'⟩ := kv
    by_cases hk : k' = k₀
    · simp [dictPop, hk] at hpop
      rw [← hpop.2]
      have hne' : ¬k' = k := fun hc => hne (hc ▸ hk)
      simp [dictGet, hne']
    · simp only [dictPop, if_neg hk] at hpop
      rcases hp : dictPop k₀ t with _ | ⟨w, t'⟩
      · rw [hp] at hpop
        exact Option.noConfusion hpop
      · rw [hp] at hpop
        simp at hpop
        rw [← hpop.2]
        by_cases hkk : k' = k
        · simp [dictGet, hkk]
        · simp only [dictGet, if_neg hkk]
          exact ih t' (by rw [hp, hpop.1])

theorem dictGet_dictSet_self (k : String) (v : α) (d : List (String × α)) :
    dictGet k (dictSet k v d) = some v := by
  induction d with
  | nil => simp [dictSet, dictGet]
  | cons kv t ih =>
    obtain ⟨k', v'⟩ := kv
    by_cases hk : k' = k
    · simp [dictSet, dictGet, hk]
    · simp [dictSet, dictGet, hk, ih]

theorem dictGet_dictSet_ne (k k₀ : String) (v : α) (d : List (String × α))
    (hne : k ≠ k₀) : dictGet k (dictSet k₀ v d) = dictGet k d := by
  have hne' : ¬k₀ = k := fun h => hne h.symm
  induction d with
  | nil => simp [dictSet, dictGet, hne']
  | cons kv t ih =>
    obtain ⟨k', v'⟩ := kv
    by_cases hk : k' = k₀
    · subst hk
      simp [dictSet, dictGet, hne']
    · simp only [dictSet, if_neg hk]
      by_cases hkk : k' = k
      · simp [dictGet, hkk]
      · simp [dictGet, hkk, ih]

theorem mapOpt_forall₂ (f : α → Option β) (l : List α) (l' : List β)
    (h : mapOpt f l = some l') :
    List.Forall₂ (fun a b => f a = some b) l l' := by
  induction l generalizing l' with
  | nil =>
    simp [mapOpt] at h
    subst h
    exact List.Forall₂.nil
  | cons a t ih =>
    simp only [mapOpt] at h
    rcases hf : f a with _ | b
    · rw [hf] at h
      exact Option.noConfusion h
    · rw [hf] at h
      rcases hm : mapOpt f t with _ | bs
      · rw [hm] at h
        exact Option.noConfusion h
      · rw [hm] at h
        simp at h
        subst h
        exact List.Forall₂.cons hf (ih bs hm)

/-- C5 counterexample: a model record carrying a confidence score and
character offsets.  After normalization the record still contains the
`score` (and `start`, `end`) keys: the normalizer renames `entity_group`
and `word` but drops nothing, so the output record does not have exactly
the keys `text` and `label`. -/
theorem normalize_keeps_extra_fields_counterexample :
    extract_ner_entities
      [[("entity_group", "Medication"), ("score", "0.99"), ("word", "ibuprofen"),
        ("start", "10"), ("end", "19")]] =
      some [[("score", "0.99"), ("start", "10"), ("end", "19"),
             ("label", "Medication"), ("text", "ibuprofen")]] ∧
    dictGet "score" [("score", "0.99"), ("start", "10"), ("end", "19"),
      ("label", ("Medication" : String)), ("text", "ibuprofen")] = some "0.99" := by
  decide

/-- C5 amended: for every sequence of external-model records (each carrying
the model's `entity_group` and `word` fields), the normalizer renames
`entity_group` into `label` and `word` into `text`; every other field
(confidence score, character offsets, etc.) is retained unchanged on the
record — not dropped — and is simply never consumed downstream.  No record
is dropped, deduplicated, or thresholded: the output is related pointwise,
in order, to the input. -/
theorem normalize_renames (α : Type) :
    (∀ (d : List (String × α)) (g w : α),
      dictGet "entity_group" d = some g → dictGet "word" d = some w →
      ∃ d', normalizeEntity d = some d' ∧
        dictGet "label" d' = some g ∧ dictGet "text" d' = some w ∧
        ∀ k, k ≠ "entity_group" → k ≠ "word" → k ≠ "label" → k ≠ "text" →
          dictGet k d' = dictGet k d)
    ∧ (∀ (es out : List (List (String × α))),
      extract_ner_entities es = some out →
      List.Forall₂ (fun d d' => normalizeEntity d = some d') es out) := by
  constructor
  · intro d g w hg hw
    obtain ⟨d1, hpop1⟩ := dictPop_of_dictGet _ d g hg
    have hw1 : dictGet "word" d1 = some w := by
      rw [dictGet_dictPop_ne _ _ d d1 g hpop1 (by decide)]
      exact hw
    have hw2 : dictGet "word" (dictSet "label" g d1) = some w := by
      rw [dictGet_dictSet_ne _ _ g d1 (by decide)]
      exact hw1
    obtain ⟨d3, hpop2⟩ := dictPop_of_dictGet _ _ w hw2
    refine ⟨dictSet "text" w d3, ?_, ?_, ?_, ?_⟩
    · simp only [normalizeEntity, hpop1, hpop2]
    · rw [dictGet_dictSet_ne _ _ w d3 (by decide),
        dictGet_dictPop_ne _ _ _ d3 w hpop2 (by decide),
        dictGet_dictSet_self]
    · rw [dictGet_dictSet_self]
    · intro k hk1 hk2 hk3 hk4
      rw [dictGet_dictSet_ne _ _ w d3 hk4,
        dictGet_dictPop_ne _ _ _ d3 w hpop2 hk2,
        dictGet_dictSet_ne _ _ g d1 hk3,
        dictGet_dictPop_ne _ _ d d1 g hpop1 hk1]
  · intro es out h
    exact mapOpt_forall₂ _ es out h

/-- C5 witness: the per-record renaming applied to a concrete model record
with a score field. -/
theorem normalize_renames_witness :
    dictGet "entity_group"
      [("entity_group", ("Medication" : String)), ("score", "0.99"),
       ("word", "ibuprofen")] = some "Medication" ∧
    ∃ d', normalizeEntity
        [("entity_group", ("Medication" : String)), ("score", "0.99"),
         ("word", "ibuprofen")] = some d' ∧
      dictGet "label" d' = some "Medication" ∧ dictGet "text" d' = some "ibuprofen" ∧
      ∀ k, k ≠ "entity_group" → k ≠ "word" → k ≠ "label" → k ≠ "text" →
        dictGet k d' = dictGet k
          [("entity_group", ("Medication" : String)), ("score", "0.99"),
           ("word", "ibuprofen")] :=
  ⟨by decide,
    (normalize_renames String).1
      [("entity_group", "Medication"), ("score", "0.99"), ("word", "ibuprofen")]
      "Medication" "ibuprofen" (by decide) (by decide)⟩

/-! ## Search lemmas -/

/-- The match criteria exactly as C6 states them: name contains the query,
or the query is all decimal digits and equals the identifier, or some
entity text or label across the patient's reports contains the query. -/
def searchSpecMatches (db : DB) (q : String) (p : PatientRow) : Prop :=
  likeContains p.name q = true
  ∨ (pyIsdigit q = true ∧ p.id = pyInt q)
  ∨ ∃ r ∈ db.reports, r.patient_id = p.id ∧
      ∃ nr ∈ db.ner_results, nr.report_id = r.id ∧
        (likeContains nr.text q = true ∨ likeContains nr.label q = true)

theorem lj1_exists (db : DB) (p : PatientRow) : ∃ ro, ro ∈ lj1 db p := by
  simp only [lj1]
  rcases hf : db.reports.filter (fun r => r.patient_id = p.id) with _ | ⟨r, rs⟩
  · exact ⟨none, by rw [hf]; simp⟩
  · exact ⟨some r, by rw [hf]; simp⟩

theorem lj2_exists (db : DB) (ro : Option ReportRow) : ∃ no, no ∈ lj2 db ro := by
  cases ro with
  | none => exact ⟨none, by simp [lj2]⟩
  | some r =>
    simp only [lj2]
    rcases hf : db.ner_results.filter (fun nr => nr.report_id = r.id) with _ | ⟨n, ns⟩
    · exact ⟨none, by rw [hf]; simp⟩
    · exact ⟨some n, by rw [hf]; simp⟩

theorem lj1_mem_some (db : DB) (p : PatientRow) (r : ReportRow) :
    some r ∈ lj1 db p ↔ r ∈ db.reports ∧ r.patient_id = p.id := by
  constructor
  · intro h
    simp only [lj1] at h
    by_cases he : (db.reports.filter (fun r => r.patient_id = p.id)).isEmpty
    · rw [if_pos he] at h
      simp at h
    · rw [if_neg he] at h
      simp only [List.mem_map, Option.some.injEq] at h
      obtain ⟨a, ha, rfl⟩ := h
      simpa using List.mem_filter.mp ha
  · rintro ⟨hr, hpid⟩
    have hmem : r ∈ db.reports.filter (fun r => r.patient_id = p.id) :=
      List.mem_filter.mpr ⟨hr, by simpa using hpid⟩
    have hne : ¬(db.reports.filter (fun r => r.patient_id = p.id)).isEmpty := by
      intro he
      rw [List.isEmpty_iff.mp he] at hmem
      simp at hmem
    simp only [lj1, if_neg hne]
    exact List.mem_map_of_mem some hmem

theorem lj2_mem_some (db : DB) (ro : Option ReportRow) (nr : NerRow) :
    some nr ∈ lj2 db ro ↔
      ∃ r, ro = some r ∧ nr ∈ db.ner_results ∧ nr.report_id = r.id := by
  cases ro with
  | none => simp [lj2]
  | some r =>
    constructor
    · intro h
      simp only [lj2] at h
      by_cases he : (db.ner_results.filter (fun nr => nr.report_id = r.id)).isEmpty
      · rw [if_pos he] at h
        simp at h
      · rw [if_neg he] at h
        simp only [List.mem_map, Option.some.injEq] at h
        obtain ⟨a, ha, rfl⟩ := h
        have := List.mem_filter.mp ha
        exact ⟨r, rfl, this.1, by simpa using this.2⟩
    · rintro ⟨r', hr', hnr, hrep⟩
      obtain rfl : r = r' := by injection hr'
      have hmem : nr ∈ db.ner_results.filter (fun nr => nr.report_id = r.id) :=
        List.mem_filter.mpr ⟨hnr, by simpa using hrep⟩
      have hne : ¬(db.ner_results.filter (fun nr => nr.report_id = r.id)).isEmpty := by
        intro he
        rw [List.isEmpty_iff.mp he] at hmem
        simp at hmem
      simp only [lj2, if_neg hne]
      exact List.mem_map_of_mem some hmem

theorem mem_searchJoin (db : DB) (p : PatientRow) (ro : Option ReportRow)
    (no : Option NerRow) :
    (p, ro, no) ∈ searchJoin db ↔
      p ∈ db.patients ∧ ro ∈ lj1 db p ∧ no ∈ lj2 db ro := by
  simp only [searchJoin, List.mem_flatMap, List.mem_map, Prod.mk.injEq]
  constructor
  · rintro ⟨p', hp', ro', hro', no', hno', rfl, rfl, rfl⟩
    exact ⟨hp', hro', hno'⟩
  · rintro ⟨hp, hro, hno⟩
    exact ⟨p, hp, ro, hro, no, hno, rfl, rfl, rfl⟩

/-- The identifier criterion of the WHERE clause holds iff the query is all
decimal digits and equals the patient id; a non-numeric query compares the
id against the sentinel -1, which no id (a natural number) equals. -/
theorem idParam_iff (q : String) (p : PatientRow) :
    (((p.id : Int) == pyIdParam q) = true) ↔ (pyIsdigit q = true ∧ p.id = pyInt q) := by
  rw [pyIdParam]
  by_cases hd : pyIsdigit q = true
  · simp [hd]
  · simp [hd, beq_iff_eq]

theorem mem_search_reports (q : String) (db : DB) (row : SearchRow) :
    row ∈ search_reports q db ↔
      ∃ jrow, jrow ∈ searchJoin db ∧ whereClause q jrow = true ∧
        (⟨jrow.1.id, jrow.1.name, jrow.1.age, jrow.1.gender,
          jrow.2.1.map ReportRow.filename⟩ : SearchRow) = row := by
  simp [search_reports, List.mem_dedup, List.mem_map, List.mem_filter, and_assoc]

theorem where_gives_crit (db : DB) (q : String) (p : PatientRow)
    (ro : Option ReportRow) (no : Option NerRow)
    (hj : (p, ro, no) ∈ searchJoin db) (hw : whereClause q (p, ro, no) = true) :
    searchSpecMatches db q p := by
  rw [mem_searchJoin] at hj
  obtain ⟨hp, h1, h2⟩ := hj
  simp only [whereClause, Bool.or_eq_true] at hw
  rcases hw with (hn | hid) | hnr
  · exact Or.inl hn
  · exact Or.inr (Or.inl ((idParam_iff q p).mp hid))
  · cases no with
    | none => simp at hnr
    | some nr =>
      obtain ⟨r, rfl, hnrm, hrep⟩ := (lj2_mem_some db ro nr).mp h2
      obtain ⟨hr, hpid⟩ := (lj1_mem_some db p r).mp h1
      exact Or.inr (Or.inr ⟨r, hr, hpid, nr, hnrm, hrep, by simpa using hnr⟩)

theorem crit_gives_mem (db : DB) (q : String) (p : PatientRow)
    (hp : p ∈ db.patients) (hc : searchSpecMatches db q p) :
    ∃ row ∈ search_reports q db, row.id = p.id := by
  rcases hc with hn | hid | ⟨r, hr, hpid, nr, hnr, hrep, hlike⟩
  · obtain ⟨ro, hro⟩ := lj1_exists db p
    obtain ⟨no, hno⟩ := lj2_exists db ro
    refine ⟨⟨p.id, p.name, p.age, p.gender, ro.map ReportRow.filename⟩, ?_, rfl⟩
    rw [mem_search_reports]
    exact ⟨(p, ro, no), (mem_searchJoin db p ro no).mpr ⟨hp, hro, hno⟩,
      by simp [whereClause, hn], rfl⟩
  · obtain ⟨ro, hro⟩ := lj1_exists db p
    obtain ⟨no, hno⟩ := lj2_exists db ro
    refine ⟨⟨p.id, p.name, p.age, p.gender, ro.map ReportRow.filename⟩, ?_, rfl⟩
    rw [mem_search_reports]
    exact ⟨(p, ro, no), (mem_searchJoin db p ro no).mpr ⟨hp, hro, hno⟩,
      by simp [whereClause, (idParam_iff q p).mpr hid], rfl⟩
  · have h1 : some r ∈ lj1 db p := (lj1_mem_some db p r).mpr ⟨hr, hpid⟩
    have h2 : some nr ∈ lj2 db (some r) := (lj2_mem_some db (some r) nr).mpr
      ⟨r, rfl, hnr, hrep⟩
    refine ⟨⟨p.id, p.name, p.age, p.gender, some r.filename⟩, ?_, rfl⟩
    rw [mem_search_reports]
    refine ⟨(p, some r, some nr), (mem_searchJoin db p (some r) (some nr)).mpr
      ⟨hp, h1, h2⟩, ?_, rfl⟩
    simp only [whereClause, Bool.or_eq_true]
    rcases hlike with h | h
    · exact Or.inr (Or.inl h)
    · exact Or.inr (Or.inr h)

/-- C6: search matching.  For every database with unique patient
identifiers and every query string, a patient is returned by
`search_reports` iff its name contains the query as a substring, or the
query is composed entirely of decimal digits and exactly equals the
patient's identifier, or some entity text or label across any of the
patient's reports contains the query as a substring.  A non-numeric query
binds the sentinel -1 to the identifier criterion, so it never matches any
patient and no type error is raised (the function is total); consequently a
query matching nothing yields the empty sequence, not an error. -/
theorem search_matching (db : DB) (q : String)
    (hid : (db.patients.map PatientRow.id).Nodup) :
    (∀ p ∈ db.patients,
      ((∃ row ∈ search_reports q db, row.id = p.id) ↔ searchSpecMatches db q p))
    ∧ ((∀ p ∈ db.patients, ¬searchSpecMatches db q p) → search_reports q db = []) := by
  constructor
  · intro p hp
    constructor
    · rintro ⟨row, hrow, hrid⟩
      rw [mem_search_reports] at hrow
      obtain ⟨⟨p', ro, no⟩, hj, hw, hproj⟩ := hrow
      have hpid : p'.id = p.id := by
        rw [← hrid, ← hproj]
      have hp' : p' ∈ db.patients := ((mem_searchJoin db p' ro no).mp hj).1
      have : p' = p := List.inj_on_of_nodup_map hid hp' hp hpid
      subst this
      exact where_gives_crit db q p' ro no hj hw
    · exact crit_gives_mem db q p hp
  · intro h
    have hfil : (searchJoin db).filter (whereClause q) = [] := by
      refine List.filter_eq_nil_iff.mpr fun jrow hj hw => ?_
      obtain ⟨p, ro, no⟩ := jrow
      have hp : p ∈ db.patients := ((mem_searchJoin db p ro no).mp hj).1
      exact h p hp (where_gives_crit db q p ro no hj hw)
    rw [search_reports, hfil]
    rfl

/-- A concrete one-patient database used to witness the search claim. -/
def searchWitnessDB : DB :=
  ⟨[⟨1, "Jane Doe", some 45, "Female"⟩], [⟨1, 1, "r1.pdf", true⟩],
    [⟨1, 1, "ibuprofen", "Medication"⟩], 2, 2, 2⟩

/-- C6 witness: the characterization instantiated on a concrete database
and query. -/
theorem search_matching_witness :
    (searchWitnessDB.patients.map PatientRow.id).Nodup ∧
    ((∀ p ∈ searchWitnessDB.patients,
      ((∃ row ∈ search_reports "ibu" searchWitnessDB, row.id = p.id) ↔
        searchSpecMatches searchWitnessDB "ibu" p))
    ∧ ((∀ p ∈ searchWitnessDB.patients, ¬searchSpecMatches searchWitnessDB "ibu" p) →
        search_reports "ibu" searchWitnessDB = [])) :=
  ⟨by decide, search_matching searchWitnessDB "ibu" (by decide)⟩

end MedicalNER
